import Mathlib

set_option maxRecDepth 8000

/-!
Verification development for the STOX repository (stox-image-service,
stox-seo-service, stox-agent).  Python strings are modelled as `List Char`,
byte strings as `List UInt8`; fallible Python code returns `Except`-style
outcomes.  Each section names the source file and function it embeds.
-/

/- Characters that are awkward to spell in literals are named constants. -/
def dqc : Char := Char.ofNat 34
def sqc : Char := Char.ofNat 39
def bslc : Char := Char.ofNat 92
def lbrace : Char := Char.ofNat 123
def rbrace : Char := Char.ofNat 125

def toChars (s : String) : List Char := s.data

/-- Python `str.isspace` set used by `str.strip()` (ASCII part). -/
def isPyWs (c : Char) : Bool :=
  c = ' ' ∨ c = Char.ofNat 9 ∨ c = Char.ofNat 10 ∨ c = Char.ofNat 13 ∨
    c = Char.ofNat 11 ∨ c = Char.ofNat 12

/-- Python `s.strip()`: drop leading and trailing whitespace. -/
def pyStrip (l : List Char) : List Char :=
  ((l.dropWhile isPyWs).reverse.dropWhile isPyWs).reverse

/-- Python `s.strip(cs)`: drop leading and trailing characters from `cs`. -/
def pyStripChars (cs : List Char) (l : List Char) : List Char :=
  ((l.dropWhile (cs.contains ·)).reverse.dropWhile (cs.contains ·)).reverse

/-!
Section: stox-image-service/src/procces_image.py — `ImageService`

The Gemini stream is a list of chunks; a chunk whose `candidates`,
`candidates[0].content` or `...content.parts` is `None` is modelled as
`none`, otherwise as the list of its parts.  A part carries optional
`inline_data` (binary payload plus declared mime type) and optional text.
-/

structure InlineData where
  data : List UInt8
  mime_type : String
deriving DecidableEq, Repr

structure GPart where
  inline_data : Option InlineData
  text : Option (List Char)
deriving DecidableEq, Repr

abbrev GChunk := Option (List GPart)

/-- The accumulator fields that `ImageService.__init__` sets to `None` and
`generate` mutates: `processed_image_data`, `mime_type`, `message`. -/
structure GenState where
  processed_image_data : Option (List UInt8)
  mime_type : Option String
  message : Option (List Char)
deriving DecidableEq, Repr

/-- Fresh state: `ImageService.__init__` leaves all three accumulator fields `None`. -/
def freshImageService : GenState := ⟨none, none, none⟩

/-- The guard `if part.inline_data and part.inline_data.data:` — the part is
treated as binary exactly when `inline_data` is present with non-empty data. -/
def partBinary (p : GPart) : Option (List UInt8 × String) :=
  match p.inline_data with
  | some d => if d.data ≠ [] then some (d.data, d.mime_type) else none
  | none => none

/-- A part contributes text only when the binary branch was not taken
(`elif part.text:`). -/
def partText (p : GPart) : Option (List Char) :=
  match partBinary p with
  | some _ => none
  | none => p.text

/-- Body of the inner `for part in chunk.candidates[0].content.parts` loop:
a binary part overwrites `processed_image_data` and `mime_type`; otherwise a
non-empty text part is appended to `response_text`. -/
def partStep (acc : GenState × List Char) (p : GPart) : GenState × List Char :=
  match partBinary p with
  | some dm =>
    ({ acc.1 with processed_image_data := some dm.1, mime_type := some dm.2 }, acc.2)
  | none =>
    match p.text with
    | some t => if t ≠ [] then (acc.1, acc.2 ++ t) else acc
    | none => acc

/-- Body of the outer `for chunk in ...generate_content_stream(...)` loop:
chunks with missing candidates/content/parts are skipped (`continue`). -/
def chunkStep (acc : GenState × List Char) (c : GChunk) : GenState × List Char :=
  match c with
  | none => acc
  | some parts => parts.foldl partStep acc

/-- The whole streaming loop of `ImageService.generate`, started from the
service's current accumulator state and an empty local `response_text`. -/
def muxRun (st : GenState) (chunks : List GChunk) : GenState × List Char :=
  chunks.foldl chunkStep (st, [])

inductive PyErr
  | typeError
deriving DecidableEq, Repr

/-- Model of `ImageService.generate` after the loop: sets
`self.message = response_text.strip() if response_text else "Image processed successfully"`,
then logs `len(self.processed_image_data)` — a `TypeError` if that field is
still `None` — and returns the triple.  The `except` clause re-raises. -/
def ImageService_generate (st : GenState) (chunks : List GChunk) :
    GenState × Except PyErr (List UInt8 × Option String × List Char) :=
  let r := muxRun st chunks
  let msg := if r.2 ≠ [] then pyStrip r.2 else toChars ("Image processed successfully")
  let st2 := { r.1 with message := some msg }
  match st2.processed_image_data with
  | none => (st2, .error .typeError)
  | some d => (st2, .ok (d, st2.mime_type, msg))

/-!
Section: stox-image-service/grpc_server.py — `ImageServiceServicer.ProcessImage`

The servicer is constructed once and holds a single `ImageService`
(`self.image_service = ImageService()` in `__init__`), so the accumulator
state threads from one request to the next.
-/

structure ProcessImageResponse where
  processed_image_data : List UInt8
  mime_type : String
  message : List Char
deriving DecidableEq, Repr

inductive GrpcReply
  | success (r : ProcessImageResponse)
  | internalError (r : ProcessImageResponse)
deriving DecidableEq, Repr

/-- Text of `str(e)` for the `TypeError` raised by `len(None)`. -/
def typeErrorText : List Char := toChars ("object of type 'NoneType' has no len()")

/-- Model of `ProcessImage`: calls `generate` on the shared service; on success builds
the protobuf reply (a successful `generate` always has the mime recorded, so
`getD` never fires); on exception sets `StatusCode.INTERNAL` and returns an
empty reply whose message stringifies the exception. -/
def ProcessImage (st : GenState) (chunks : List GChunk) : GenState × GrpcReply :=
  match ImageService_generate st chunks with
  | (st2, .ok (d, m, msg)) => (st2, .success ⟨d, m.getD (""), msg⟩)
  | (st2, .error .typeError) =>
    (st2, .internalError ⟨[], "", toChars ("Error: ") ++ typeErrorText⟩)

/-! Specification-side views of a stream, used to state the claims. -/

/-- All binary payloads of a stream, in arrival order. -/
def binaryPayloads (chunks : List GChunk) : List (List UInt8 × String) :=
  ((chunks.filterMap id).map (fun ps => ps.filterMap partBinary)).flatten

/-- The last binary payload (with its declared mime type) of a stream. -/
def lastBinary (chunks : List GChunk) : Option (List UInt8 × String) :=
  (binaryPayloads chunks).getLast?

/-- The first binary payload (with its declared mime type) of a stream. -/
def firstBinary (chunks : List GChunk) : Option (List UInt8 × String) :=
  (binaryPayloads chunks).head?

/-- All text fragments of a stream, in arrival order. -/
def textFragments (chunks : List GChunk) : List (List Char) :=
  ((chunks.filterMap id).map (fun ps => ps.filterMap partText)).flatten

/-- Left-to-right concatenation of fragments. -/
def joinFragments : List (List Char) → List Char
  | [] => []
  | t :: ts => t ++ joinFragments ts

/-- The seo-service streaming loop (`response_text += chunk.text` in
`GenerateFromImage`), fed a list of text fragments. -/
def seoTextBuffer (chunks : List (List Char)) : List Char :=
  chunks.foldl (· ++ ·) []

/-! Helper definitions and lemmas about the stream fold. -/

/-- Overwrite the payload/mime fields with a binary payload, if one is given. -/
def applyLast (st : GenState) (o : Option (List UInt8 × String)) : GenState :=
  match o with
  | some dm => { st with processed_image_data := some dm.1, mime_type := some dm.2 }
  | none => st

/-- Fallback choice: `orElseO o d` is `o` unless it is `none`, in which case it is `d`. -/
def orElseO {α : Type} (o d : Option α) : Option α :=
  match o with
  | some y => some y
  | none => d

/-!
Section: stox-agent/multi_tool_agent — `seo_analysis` and `SEOAnalysisTool._run`

The gRPC stub call either returns a protobuf `ImageResponse` or raises; an
exception is modelled as `Except.error` carrying `str(e)`.
-/

structure PbImageResponse where
  title : List Char
  description : List Char
deriving DecidableEq, Repr

/-- A simple model of `str(response)` for the protobuf message (the exact
protobuf text format is irrelevant to the claims; only that it is a string). -/
def pbToStr (r : PbImageResponse) : List Char :=
  toChars ("title: ") ++ r.title ++ toChars (" description: ") ++ r.description

inductive SeoReturn
  | resp (r : PbImageResponse)
  | errText (s : List Char)
deriving DecidableEq, Repr

/-- Model of `seo_analysis` in `agent.py`: the whole body is inside `try`, and
`except Exception as e` returns the string
`f"Error analyzing image URL: {str(e)}"` — no exception escapes. -/
def seo_analysis (outcome : Except (List Char) PbImageResponse) : SeoReturn :=
  match outcome with
  | .ok r => .resp r
  | .error e => .errText (toChars ("Error analyzing image URL: ") ++ e)

/-- Model of `SEOAnalysisTool._run` in `langchain_agent.py`: `str(seo_analysis(url))`.
Its own `except` branch is unreachable because `seo_analysis` never raises,
so `_run` is a total function into strings. -/
def SEOAnalysisTool_run (outcome : Except (List Char) PbImageResponse) : List Char :=
  match seo_analysis outcome with
  | .resp r => pbToStr r
  | .errText s => s

/-!
Section: orchestration loop

Modelled from the spec: the loop itself lives in the LangChain
`AgentExecutor` (a third-party library), not under `src/`; the repository
code only constructs the executor (`langchain_agent.py:79-84`).  Following
the spec's state machine (§4.4): each round invokes the model on the
transcript so far; a final answer stops the run; a tool call appends a model
turn and a tool turn and re-enters the loop; a hard cap on the number of
model↔tool round-trips forces finalization with a degraded answer.
-/

inductive ModelTurnA
  | finalAns (answer : List Char)
  | toolCall (args : List Char)
deriving DecidableEq, Repr

inductive TTurn
  | modelTurn (m : ModelTurnA)
  | toolTurn (result : List Char)
deriving DecidableEq, Repr

/-- Modelled from the spec: the degraded/explanatory answer produced when the
round-trip cap is exceeded. -/
def degradedAnswer : List Char :=
  toChars ("Agent stopped due to iteration limit or time limit.")

/-- Modelled from the spec: one run of the orchestration loop with `budget`
remaining round-trips.  At budget 0 a tool-requesting turn finalizes with the
degraded answer instead of calling the tool. -/
def loopGo (model : List TTurn → ModelTurnA) (tool : List Char → List Char) :
    Nat → List TTurn → List TTurn × List Char
  | 0, tr =>
    (tr ++ [.modelTurn (model tr)],
      match model tr with
      | .finalAns a => a
      | .toolCall _ => degradedAnswer)
  | budget + 1, tr =>
    match model tr with
    | .finalAns a => (tr ++ [.modelTurn (.finalAns a)], a)
    | .toolCall args =>
      loopGo model tool budget
        (tr ++ [.modelTurn (.toolCall args), .toolTurn (tool args)])

/-- Modelled from the spec: a full run starts with an empty transcript and
`cap` available round-trips. -/
def runLoop (model : List TTurn → ModelTurnA) (tool : List Char → List Char)
    (cap : Nat) : List TTurn × List Char :=
  loopGo model tool cap []

def isModelTurn : TTurn → Bool
  | .modelTurn _ => true
  | .toolTurn _ => false

def countModelTurns (tr : List TTurn) : Nat := (tr.filter isModelTurn).length

/-- The two-round demonstration model: request the tool on the first turn,
then answer once a tool result is in the transcript. -/
def demoModel : List TTurn → ModelTurnA := fun tr =>
  match tr with
  | [] => .toolCall (toChars ("http://x/img.jpg"))
  | _ :: _ => .finalAns (toChars ("done"))

/-!
Section: stox-seo-service/grpc_server.py — `_parse_gemini_response`

Three strategies over the raw response text:
1. `re.findall(r'\x7b.*?"title".*?"description".*?\x7d', text, re.DOTALL)`
   followed by `json.loads` on each match, accepting the first match whose
   `title`/`description` values strip to non-empty strings;
2. ordered per-field regex variants with `re.IGNORECASE | re.DOTALL`;
3. a line-by-line keyword heuristic;
finally `context.abort` when either field is still empty.

`json.loads` is Python's stdlib strict JSON decoder; it is modelled below by
a recursive-descent parser of the JSON grammar (fuelled for nested values,
with `object`/`array`/`string`/`number`/`true`/`false`/`null` plus the
CPython extensions `NaN`/`Infinity`/`-Infinity`).  `\uXXXX` escapes are
mapped through `Char.ofNat`; surrogate-pair recombination is not modelled.
`dict.get(key, "")` keeps the LAST occurrence of a duplicate key;
`.strip()` on a non-string value raises `AttributeError`, which the Python
code does not catch (it only catches `json.JSONDecodeError`).
-/

def isJWs (c : Char) : Bool :=
  c = ' ' ∨ c = Char.ofNat 9 ∨ c = Char.ofNat 10 ∨ c = Char.ofNat 13

def skipJWs (l : List Char) : List Char := l.dropWhile isJWs

inductive JValue
  | str (s : List Char)
  | num (raw : List Char)
  | jbool (b : Bool)
  | jnull
  | obj (fields : List (List Char × JValue))
  | arr (elems : List JValue)

/-- Single-character JSON string escapes. -/
def escMap (c : Char) : Option Char :=
  if c = dqc then some dqc
  else if c = bslc then some bslc
  else if c = '/' then some '/'
  else if c = 'b' then some (Char.ofNat 8)
  else if c = 'f' then some (Char.ofNat 12)
  else if c = 'n' then some (Char.ofNat 10)
  else if c = 'r' then some (Char.ofNat 13)
  else if c = 't' then some (Char.ofNat 9)
  else none

def hexVal (c : Char) : Option Nat :=
  if '0' ≤ c ∧ c ≤ '9' then some (c.toNat - 48)
  else if 'a' ≤ c ∧ c ≤ 'f' then some (c.toNat - 87)
  else if 'A' ≤ c ∧ c ≤ 'F' then some (c.toNat - 55)
  else none

/-- JSON string body lexer (after the opening quote): strict mode rejects raw
control characters below 0x20. -/
def lexString : List Char → Option (List Char × List Char)
  | [] => none
  | c :: rest =>
    if c = dqc then some ([], rest)
    else if c = bslc then
      match rest with
      | 'u' :: h1 :: h2 :: h3 :: h4 :: rest4 =>
        match hexVal h1, hexVal h2, hexVal h3, hexVal h4 with
        | some a, some b, some c2, some d =>
          (lexString rest4).map
            (fun p => (Char.ofNat (((a * 16 + b) * 16 + c2) * 16 + d) :: p.1, p.2))
        | _, _, _, _ => none
      | e :: rest2 =>
        match escMap e with
        | some ch => (lexString rest2).map (fun p => (ch :: p.1, p.2))
        | none => none
      | [] => none
    else if c.toNat < 32 then none
    else (lexString rest).map (fun p => (c :: p.1, p.2))

def isDigitC (c : Char) : Bool := '0' ≤ c ∧ c ≤ '9'

/-- JSON integer part: `0` or a nonzero digit followed by digits. -/
def lexInt (l : List Char) : Option (List Char × List Char) :=
  match l with
  | [] => none
  | c :: rest =>
    if c = '0' then some ([c], rest)
    else if isDigitC c then
      some (c :: rest.takeWhile isDigitC, rest.drop (rest.takeWhile isDigitC).length)
    else none

/-- JSON number: `-?int(\.digits+)?([eE][+-]?digits+)?`; like the stdlib
regex, a bare `.` or exponent head without digits is left unconsumed. -/
def lexNumber (l : List Char) : Option (List Char × List Char) :=
  let sl : List Char × List Char :=
    match l with
    | c :: rest => if c = '-' then ([c], rest) else ([], l)
    | [] => ([], l)
  match lexInt sl.2 with
  | none => none
  | some (ip, l2) =>
    let fr : List Char × List Char :=
      match l2 with
      | c :: rest =>
        if c = '.' then
          let ds := rest.takeWhile isDigitC
          if ds = [] then ([], l2) else (c :: ds, rest.drop ds.length)
        else ([], l2)
      | [] => ([], l2)
    let ex : List Char × List Char :=
      match fr.2 with
      | c :: rest =>
        if c = 'e' ∨ c = 'E' then
          let sr : List Char × List Char :=
            match rest with
            | s :: r2 => if s = '+' ∨ s = '-' then ([s], r2) else ([], rest)
            | [] => ([], rest)
          let ds := sr.2.takeWhile isDigitC
          if ds = [] then ([], fr.2) else (c :: (sr.1 ++ ds), sr.2.drop ds.length)
        else ([], fr.2)
      | [] => ([], fr.2)
    some (sl.1 ++ ip ++ fr.1 ++ ex.1, ex.2)

def beginsWith : List Char → List Char → Bool
  | [], _ => true
  | _ :: _, [] => false
  | a :: n, b :: h => a = b && beginsWith n h

inductive JMode
  | val
  | objStart
  | members (acc : List (List Char × JValue))
  | elems (acc : List JValue)
  | elemsNext (acc : List JValue)

/-- Fuelled recursive-descent JSON parser. -/
def parseJ : Nat → JMode → List Char → Option (JValue × List Char)
  | 0, _, _ => none
  | fuel + 1, m, l =>
    match m with
    | .val =>
      match l with
      | [] => none
      | c :: rest =>
        if c = lbrace then parseJ fuel .objStart (skipJWs rest)
        else if c = '[' then parseJ fuel (.elems []) (skipJWs rest)
        else if c = dqc then (lexString rest).map (fun p => (.str p.1, p.2))
        else if beginsWith (toChars ("true")) l then some (.jbool true, l.drop 4)
        else if beginsWith (toChars ("false")) l then some (.jbool false, l.drop 5)
        else if beginsWith (toChars ("null")) l then some (.jnull, l.drop 4)
        else if beginsWith (toChars ("NaN")) l then some (.num (toChars ("NaN")), l.drop 3)
        else if beginsWith (toChars ("Infinity")) l then
          some (.num (toChars ("Infinity")), l.drop 8)
        else if beginsWith (toChars ("-Infinity")) l then
          some (.num (toChars ("-Infinity")), l.drop 9)
        else (lexNumber l).map (fun p => (.num p.1, p.2))
    | .objStart =>
      match l with
      | [] => none
      | c :: rest =>
        if c = rbrace then some (.obj [], rest)
        else if c = dqc then
          (lexString rest).bind (fun kr =>
            match skipJWs kr.2 with
            | [] => none
            | c2 :: r2 =>
              if c2 = ':' then
                (parseJ fuel .val (skipJWs r2)).bind (fun vr =>
                  parseJ fuel (.members [(kr.1, vr.1)]) (skipJWs vr.2))
              else none)
        else none
    | .members acc =>
      match l with
      | [] => none
      | c :: rest =>
        if c = rbrace then some (.obj acc.reverse, rest)
        else if c = ',' then
          match skipJWs rest with
          | [] => none
          | c1 :: r1 =>
            if c1 = dqc then
              (lexString r1).bind (fun kr =>
                match skipJWs kr.2 with
                | [] => none
                | c3 :: r3 =>
                  if c3 = ':' then
                    (parseJ fuel .val (skipJWs r3)).bind (fun vr =>
                      parseJ fuel (.members ((kr.1, vr.1) :: acc)) (skipJWs vr.2))
                  else none)
            else none
        else none
    | .elems acc =>
      match l with
      | [] => none
      | c :: rest =>
        if c = ']' then (if acc.isEmpty then some (.arr [], rest) else none)
        else
          (parseJ fuel .val l).bind (fun vr =>
            parseJ fuel (.elemsNext (vr.1 :: acc)) (skipJWs vr.2))
    | .elemsNext acc =>
      match l with
      | [] => none
      | c :: rest =>
        if c = ']' then some (.arr acc.reverse, rest)
        else if c = ',' then parseJ fuel (.elems acc) (skipJWs rest)
        else none

/-- Model of `json.loads`: whole-input parse, surrounding whitespace allowed. -/
def jsonLoads (l : List Char) : Option JValue :=
  match parseJ (l.length + 1) .val (skipJWs l) with
  | some (v, rest) => if skipJWs rest = [] then some v else none
  | none => none

/-- Python `dict` built from pairs keeps the LAST duplicate; `.get key ""`
falls back to the empty string. -/
def dictGet (fields : List (List Char × JValue)) (key : List Char) : JValue :=
  match fields.reverse.find? (fun p => p.1 == key) with
  | some p => p.2
  | none => .str []

/-- Model of `value.strip()` — defined only for strings; a non-string value raises
`AttributeError`. -/
def stripField (v : JValue) : Option (List Char) :=
  match v with
  | .str s => some (pyStrip s)
  | _ => none

inductive Strat1
  | found (title description : List Char)
  | noMatch
  | pyExn
deriving DecidableEq, Repr

def titleKw : List Char := toChars ("title")
def descKw : List Char := toChars ("description")

/-- The `for json_match in json_matches:` loop: `json.JSONDecodeError`
continues; a successful parse reads `title`/`description` with default `""`,
strips them (raising on non-strings) and returns when both are non-empty. -/
def tryJsonMatches : List (List Char) → Strat1
  | [] => .noMatch
  | m :: ms =>
    match jsonLoads m with
    | none => tryJsonMatches ms
    | some (.obj fs) =>
      match stripField (dictGet fs titleKw), stripField (dictGet fs descKw) with
      | some t, some d =>
        if t ≠ [] ∧ d ≠ [] then .found t d else tryJsonMatches ms
      | _, _ => .pyExn
    | some _ => .pyExn

/-- First index at which `n` occurs in the list, if any. -/
def findSub (n : List Char) : List Char → Option Nat
  | [] => if beginsWith n [] then some 0 else none
  | c :: rest =>
    if beginsWith n (c :: rest) then some 0 else (findSub n rest).map (· + 1)

def titleLit : List Char := toChars ("\"title\"")
def descLit : List Char := toChars ("\"description\"")

/-- One attempt of the strategy-1 regex at the current position: `\x7b`, then
the lazy gaps scan to the first `"title"`, the first `"description"` after
it, and the first `\x7d` after that.  Returns the match length.  (For a
pattern made of literal pieces, lazy-quantifier backtracking is equivalent to
this first-occurrence chaining.) -/
def matchTD : List Char → Option Nat
  | [] => none
  | c :: rest =>
    if c = lbrace then
      match findSub titleLit rest with
      | none => none
      | some i =>
        match findSub descLit (rest.drop (i + titleLit.length)) with
        | none => none
        | some j =>
          match findSub [rbrace]
              ((rest.drop (i + titleLit.length)).drop (j + descLit.length)) with
          | none => none
          | some k => some (1 + (i + titleLit.length) + (j + descLit.length) + (k + 1))
    else none

/-- Model of `re.findall`: leftmost non-overlapping matches, scanning left to right.
The fuel (one unit per consumed character) keeps the recursion structural. -/
def findallFuel : Nat → List Char → List (List Char)
  | 0, _ => []
  | fuel + 1, l =>
    match l with
    | [] => []
    | c :: rest =>
      match matchTD (c :: rest) with
      | some len => (c :: rest).take len :: findallFuel fuel ((c :: rest).drop len)
      | none => findallFuel fuel rest

def findallTD (l : List Char) : List (List Char) := findallFuel l.length l

/-- Python `str.lower` restricted to the characters this code meets: ASCII
plus the Turkish letters appearing in the keyword lists.  (`'İ'.lower()`
produces a two-character sequence in CPython and is not modelled.) -/
def pyLower (c : Char) : Char :=
  if c = 'Ç' then 'ç'
  else if c = 'Ğ' then 'ğ'
  else if c = 'Ö' then 'ö'
  else if c = 'Ş' then 'ş'
  else if c = 'Ü' then 'ü'
  else c.toLower

/-- Whitespace skip `\s*` for the strategy-2 patterns (ASCII part of `re` whitespace). -/
def skipReWs (l : List Char) : List Char := l.dropWhile isPyWs

/-- Case-insensitive consumption of a lowercase literal. -/
def ciEat : List Char → List Char → Option (List Char)
  | [], l => some l
  | _ :: _, [] => none
  | p :: ps, c :: cs => if pyLower c = p then ciEat ps cs else none

/-- Value matcher `q([^q]+)q` at the current position: opening quote, a non-empty greedy
run of non-quote characters (the captured group), closing quote. -/
def matchQVal (q : Char) (l : List Char) : Option (List Char) :=
  match l with
  | [] => none
  | c :: rest =>
    if c = q then
      let g := rest.takeWhile (fun x => x != q)
      if g = [] then none
      else if rest.drop g.length = [] then none
      else some g
    else none

/-- One strategy-2 pattern variant, attempted at the current position.
`quotedKey = true` models `"key"\s*:\s*qVALq`; `false` models `key:\s*qVALq`
(note: no `\s*` between the bare key and the colon, as in the source). -/
def patAt (quotedKey : Bool) (key : List Char) (q : Char) (l : List Char) :
    Option (List Char) :=
  if quotedKey then
    match l with
    | [] => none
    | c :: rest =>
      if c = dqc then
        match ciEat key rest with
        | none => none
        | some r1 =>
          match r1 with
          | [] => none
          | c2 :: r2 =>
            if c2 = dqc then
              match skipReWs r2 with
              | [] => none
              | c3 :: r4 => if c3 = ':' then matchQVal q (skipReWs r4) else none
            else none
      else none
  else
    match ciEat key l with
    | none => none
    | some r1 =>
      match r1 with
      | [] => none
      | c :: r2 => if c = ':' then matchQVal q (skipReWs r2) else none

/-- Model of `re.search`: try the pattern at each position, leftmost first. -/
def searchAt (f : List Char → Option (List Char)) : List Char → Option (List Char)
  | [] => f []
  | c :: rest =>
    match f (c :: rest) with
    | some g => some g
    | none => searchAt f rest

/-- The four `title_patterns` / `description_patterns` variants, in source
order: double-quoted key with double/single-quoted value, then bare key with
double/single-quoted value. -/
def patternVariants (key : List Char) : List (List Char → Option (List Char)) :=
  [patAt true key dqc, patAt true key sqc, patAt false key dqc, patAt false key sqc]

/-- Model of `for pattern in patterns: ... if match: value = group(1).strip(); break`;
no match at all leaves the empty string. -/
def firstPatternValue : List (List Char → Option (List Char)) → List Char → List Char
  | [], _ => []
  | p :: ps, text =>
    match searchAt p text with
    | some g => pyStrip g
    | none => firstPatternValue ps text

/-- Python `text.split(sep)` for a one-character separator. -/
def splitOnChar (sep : Char) : List Char → List (List Char)
  | [] => [[]]
  | c :: rest =>
    if c = sep then [] :: splitOnChar sep rest
    else
      match splitOnChar sep rest with
      | [] => [[c]]
      | g :: gs => (c :: g) :: gs

/-- Python `line.split(colon, 1)`: the part before the first separator and
the part after it, when the separator occurs. -/
def splitOnce (sep : Char) : List Char → Option (List Char × List Char)
  | [] => none
  | c :: rest =>
    if c = sep then some ([], rest)
    else (splitOnce sep rest).map (fun p => (c :: p.1, p.2))

def containsSub (n h : List Char) : Bool := (findSub n h).isSome

/-- The characters of `strip('",\x27')`. -/
def quoteCommaSet : List Char := [dqc, ',', sqc]

def baslikKw : List Char := toChars ("başlık")
def aciklamaKw : List Char := toChars ("açıklama")

/-- One line of the strategy-3 loop.  The title branch fires when `title` is
still empty and the stripped lowercase line mentions a title keyword; the
`elif` description branch is only reached otherwise.  When the line has no
colon nothing is assigned. -/
def lineStep (acc : List Char × List Char) (rawLine : List Char) :
    List Char × List Char :=
  let line := pyStrip rawLine
  let low := line.map pyLower
  if acc.1 = [] ∧ (containsSub titleKw low ∨ containsSub baslikKw low) then
    match splitOnce ':' line with
    | some p => (pyStripChars quoteCommaSet (pyStrip p.2), acc.2)
    | none => acc
  else if acc.2 = [] ∧ (containsSub descKw low ∨ containsSub aciklamaKw low) then
    match splitOnce ':' line with
    | some p => (acc.1, pyStripChars quoteCommaSet (pyStrip p.2))
    | none => acc
  else acc

def lineFallback (text : List Char) (t d : List Char) : List Char × List Char :=
  (splitOnChar (Char.ofNat 10) text).foldl lineStep (t, d)

structure AbortInfo where
  titleFound : Bool
  descFound : Bool
  preview : List Char
deriving DecidableEq, Repr

inductive POutcome
  | ok (title description : List Char)
  | aborted (info : AbortInfo)
  | pyError
deriving DecidableEq, Repr

/-- Model of `response_text[:500] + "..." if len(response_text) > 500 else response_text`. -/
def debugPreview (text : List Char) : List Char :=
  if 500 < text.length then text.take 500 ++ toChars ("...") else text

/-- Model of `_parse_gemini_response` (grpc_server.py:171-245).  The abort message
carries whether each field was found and the bounded preview; `pyError` is
the uncaught `AttributeError` from `.strip()` on a non-string JSON value. -/
def parse_gemini_response (text : List Char) : POutcome :=
  match tryJsonMatches (findallTD text) with
  | .found t d => .ok t d
  | .pyExn => .pyError
  | .noMatch =>
    let t0 := firstPatternValue (patternVariants titleKw) text
    let d0 := firstPatternValue (patternVariants descKw) text
    let p := if t0 = [] ∨ d0 = [] then lineFallback text t0 d0 else (t0, d0)
    if p.1 = [] ∨ p.2 = [] then
      .aborted ⟨!p.1.isEmpty, !p.2.isEmpty, debugPreview text⟩
    else .ok p.1 p.2

/-!
Section: claim C2, amended statement

A character is "plain" if it is a printable non-quote, non-backslash,
non-brace character; a flat object literal
`\x7b"title": "T", "description": "D"\x7d` built from plain, strip-invariant,
non-empty values, preceded by brace-free prose and followed by arbitrary
text, is found by the structured-literal strategy and parsed exactly.
-/

def strSafe (c : Char) : Bool :=
  32 ≤ c.toNat ∧ c ≠ dqc ∧ c ≠ bslc ∧ c ≠ lbrace ∧ c ≠ rbrace

def objTail (T D : List Char) : List Char :=
  titleLit ++ ([':', ' ', dqc] ++ (T ++ ([dqc, ',', ' '] ++
    (descLit ++ ([':', ' ', dqc] ++ (D ++ [dqc, rbrace]))))))

/-- The canonical flat object literal `\x7b"title": "T", "description": "D"\x7d`. -/
def objLit (T D : List Char) : List Char := lbrace :: objTail T D

def objVal (T D : List Char) : JValue :=
  .obj [(titleKw, .str T), (descKw, .str D)]

def objPreT : List Char := [':', ' ', dqc]

def objPostT : List Char := [dqc, ',', ' ']

/-- Everything of `objLit T D ++ s` strictly between `titleLit` and the
closing brace. -/
def objA (T D : List Char) : List Char :=
  objPreT ++ T ++ objPostT ++ descLit ++ objPreT ++ D ++ [dqc]

/-!
Section: stox-seo-service/grpc_server.py — `GenerateFromImageUrl`

`context.abort` raises an `Exception` after recording code and details; an
abort raised inside the outer `try` block (content-type, size, PIL checks) is
caught by that block's `except Exception` clause and re-raised as INTERNAL
`Unexpected error: ...` (with `str(e)` modelled as the original abort
message).  `except requests.RequestException` fires first for download
failures and aborts INVALID_ARGUMENT from its handler, un-wrapped.  The
Gemini call and the response parsing happen after the `try` block.
-/

inductive GStatus
  | invalidArgument
  | internal
deriving DecidableEq, Repr

/-- The environment of one `GenerateFromImageUrl` call: the `requests.get`
result (exception text, or content type plus body), the PIL decode result on
the body, and the Gemini streaming call result (exception text, or the full
concatenated response text). -/
structure UrlEnv where
  download : Except (List Char) (String × List UInt8)
  pil : List UInt8 → Except (List Char) Unit
  ai : Except (List Char) (List Char)

def MAX_IMAGE_BYTES : Nat := 10 * 1024 * 1024

def strStartsWith (pre s : String) : Bool := beginsWith pre.data s.data

inductive UrlOutcome
  | abort (code : GStatus) (msg : List Char)
  | resp (title description : List Char)
  | pyError
deriving DecidableEq, Repr

/-- The f-string of the final extraction-failure abort. -/
def abortMsgOf (info : AbortInfo) : List Char :=
  toChars ("Could not parse Gemini response. Found title: ") ++
    (if info.titleFound then toChars ("Yes") else toChars ("No")) ++
    toChars (", Found description: ") ++
    (if info.descFound then toChars ("Yes") else toChars ("No")) ++
    toChars (". Response preview: ") ++ info.preview

/-- The validation sequence inside the outer `try`, in source order:
content-type prefix check, size limit, PIL decode. -/
def urlTryChecks (env : UrlEnv) (ct : String) (body : List UInt8) :
    Except (GStatus × List Char) Unit :=
  if ¬ strStartsWith ("image/") ct then
    .error (.invalidArgument,
      toChars ("URL does not point to an image. Content-Type: ") ++ ct.data)
  else if body.length > MAX_IMAGE_BYTES then
    .error (.invalidArgument,
      toChars ("Image file is too large. Maximum 10MB supported."))
  else
    match env.pil body with
    | .error e => .error (.invalidArgument, toChars ("Error processing image: ") ++ e)
    | .ok _ => .ok ()

def GenerateFromImageUrl (image_url : List Char) (env : UrlEnv) : UrlOutcome :=
  if image_url = [] then .abort .invalidArgument (toChars ("Image URL is required"))
  else
    match env.download with
    | .error e =>
      .abort .invalidArgument (toChars ("Error downloading image from URL: ") ++ e)
    | .ok ctb =>
      match urlTryChecks env ctb.1 ctb.2 with
      | .error cm => .abort .internal (toChars ("Unexpected error: ") ++ cm.2)
      | .ok _ =>
        match env.ai with
        | .error e => .abort .internal (toChars ("Gemini API error: ") ++ e)
        | .ok response_text =>
          match parse_gemini_response response_text with
          | .ok t d => .resp t d
          | .aborted info => .abort .internal (abortMsgOf info)
          | .pyError => .pyError

/-! Theorems. -/

theorem keep_fold {α : Type} (l : List α) (a : Option α) :
    l.foldl (fun _ x => some x) a = orElseO (l.foldl (fun _ x => some x) none) a := by
  induction l generalizing a with
  | nil => simp [orElseO]
  | cons x l ih =>
    simp only [List.foldl_cons]
    rw [ih (some x)]
    cases h : l.foldl (fun _ x => some x) none <;> simp [orElseO]

theorem getLast?_eq_keepFold {α : Type} (l : List α) :
    l.getLast? = l.foldl (fun _ x => some x) none := by
  induction l with
  | nil => simp
  | cons x l ih =>
    simp only [List.foldl_cons]
    rw [keep_fold l (some x), ← ih]
    cases l with
    | nil => simp [orElseO]
    | cons y ys =>
      rw [List.getLast?_cons_cons]
      cases h : (y :: ys).getLast? with
      | none => simp [List.getLast?_eq_none_iff] at h
      | some z => simp [orElseO]

theorem applyLast_applyLast (st : GenState) (dm : List UInt8 × String)
    (o : Option (List UInt8 × String)) :
    applyLast { st with processed_image_data := some dm.1, mime_type := some dm.2 } o =
      applyLast st (orElseO o (some dm)) := by
  cases o <;> rfl

theorem applyLast_comp (st : GenState) (dm : List UInt8 × String)
    (o : Option (List UInt8 × String)) :
    applyLast (applyLast st (some dm)) o = applyLast st (orElseO o (some dm)) := by
  cases o <;> rfl

/-- After folding the parts of one chunk, the payload and mime fields hold the
last binary part seen (or the incoming state's values), and the message field
is untouched. -/
theorem parts_fold_state (ps : List GPart) :
    ∀ (st : GenState) (t : List Char),
      (ps.foldl partStep (st, t)).1 =
        applyLast st ((ps.filterMap partBinary).foldl (fun _ x => some x) none) := by
  induction ps with
  | nil => intro st t; simp [applyLast]
  | cons p ps ih =>
    intro st t
    simp only [List.foldl_cons, List.filterMap_cons]
    cases hb : partBinary p with
    | some dm =>
      simp only [partStep, hb, List.foldl_cons]
      rw [ih, keep_fold (ps.filterMap partBinary) (some dm)]
      exact applyLast_applyLast st dm
        ((ps.filterMap partBinary).foldl (fun _ x => some x) none)
    | none =>
      simp only [partStep, hb]
      cases ht : p.text with
      | some u =>
        by_cases hu : u = []
        · subst hu
          simp only [ne_eq, not_true_eq_false, if_false]
          exact ih st t
        · simp only [ne_eq, hu, not_false_eq_true, if_true]
          exact ih st (t ++ u)
      | none => exact ih st t

/-- After folding the parts of one chunk, the accumulated text is extended by
exactly that chunk's text fragments, in order. -/
theorem parts_fold_text (ps : List GPart) :
    ∀ (st : GenState) (t : List Char),
      (ps.foldl partStep (st, t)).2 = t ++ joinFragments (ps.filterMap partText) := by
  induction ps with
  | nil => intro st t; simp [joinFragments]
  | cons p ps ih =>
    intro st t
    simp only [List.foldl_cons, List.filterMap_cons]
    cases hb : partBinary p with
    | some dm =>
      simp only [partStep, hb, partText]
      rw [ih]
    | none =>
      simp only [partStep, hb, partText, hb]
      cases ht : p.text with
      | some u =>
        by_cases hu : u = []
        · subst hu
          simp only [ne_eq, not_true_eq_false, if_false, List.filterMap_cons_some,
            joinFragments]
          rw [ih]
          simp [joinFragments]
        · simp only [ne_eq, hu, not_false_eq_true, if_true, List.filterMap_cons_some,
            joinFragments]
          rw [ih]
          simp [joinFragments, List.append_assoc]
      | none =>
        simp only [List.filterMap_cons_none]
        exact ih st t

theorem joinFragments_append (a b : List (List Char)) :
    joinFragments (a ++ b) = joinFragments a ++ joinFragments b := by
  induction a with
  | nil => simp [joinFragments]
  | cons x a ih => simp [joinFragments, ih]

/-- The full stream fold: state view. -/
theorem mux_fold_state (chunks : List GChunk) :
    ∀ (st : GenState) (t : List Char),
      (chunks.foldl chunkStep (st, t)).1 =
        applyLast st ((binaryPayloads chunks).foldl (fun _ x => some x) none) := by
  induction chunks with
  | nil => intro st t; simp [binaryPayloads, applyLast]
  | cons c chunks ih =>
    intro st t
    cases c with
    | none =>
      simp only [List.foldl_cons, chunkStep]
      rw [ih]
      simp [binaryPayloads]
    | some ps =>
      simp only [List.foldl_cons, chunkStep]
      have hsplit : binaryPayloads (some ps :: chunks) =
          ps.filterMap partBinary ++ binaryPayloads chunks := by
        simp [binaryPayloads]
      rw [hsplit, List.foldl_append]
      rcases hfold : ps.foldl partStep (st, t) with ⟨st1, t1⟩
      have hst1 := parts_fold_state ps st t
      rw [hfold] at hst1
      simp only at hst1
      rw [ih st1 t1, hst1]
      rw [keep_fold (binaryPayloads chunks)
        ((ps.filterMap partBinary).foldl (fun _ x => some x) none)]
      cases hp : (ps.filterMap partBinary).foldl (fun _ x => some x) none with
      | some dm =>
        exact applyLast_comp st dm ((binaryPayloads chunks).foldl (fun _ x => some x) none)
      | none =>
        simp only [applyLast]
        cases hc : (binaryPayloads chunks).foldl (fun _ x => some x) none <;>
          simp [orElseO, applyLast]

/-- The full stream fold: text view. -/
theorem mux_fold_text (chunks : List GChunk) :
    ∀ (st : GenState) (t : List Char),
      (chunks.foldl chunkStep (st, t)).2 = t ++ joinFragments (textFragments chunks) := by
  induction chunks with
  | nil => intro st t; simp [textFragments, joinFragments]
  | cons c chunks ih =>
    intro st t
    cases c with
    | none =>
      simp only [List.foldl_cons, chunkStep]
      rw [ih]
      simp [textFragments]
    | some ps =>
      simp only [List.foldl_cons, chunkStep]
      have hsplit : textFragments (some ps :: chunks) =
          ps.filterMap partText ++ textFragments chunks := by
        simp [textFragments]
      rw [hsplit, joinFragments_append]
      rcases hfold : ps.foldl partStep (st, t) with ⟨st1, t1⟩
      have ht1 := parts_fold_text ps st t
      rw [hfold] at ht1
      simp only at ht1
      rw [ih st1 t1, ht1, List.append_assoc]

/-- State view: `muxRun` leaves the payload/mime fields holding the LAST binary payload of
the stream (the state is unchanged when the stream has none). -/
theorem muxRun_state (st : GenState) (chunks : List GChunk) :
    (muxRun st chunks).1 = applyLast st (lastBinary chunks) := by
  rw [muxRun, mux_fold_state chunks st [], lastBinary, getLast?_eq_keepFold]

/-- Text view: `muxRun` accumulates exactly the stream's text fragments, concatenated in
arrival order. -/
theorem muxRun_text (st : GenState) (chunks : List GChunk) :
    (muxRun st chunks).2 = joinFragments (textFragments chunks) := by
  rw [muxRun, mux_fold_text chunks st []]
  rfl

theorem foldl_append_eq_join (chunks : List (List Char)) :
    ∀ init : List Char, chunks.foldl (· ++ ·) init = init ++ joinFragments chunks := by
  induction chunks with
  | nil => intro init; simp [joinFragments]
  | cons c chunks ih =>
    intro init
    simp only [List.foldl_cons]
    rw [ih (init ++ c), joinFragments, List.append_assoc]

/-- Claim C3, counterexample: a stream with two binary chunks declaring
distinct mime types (`image/png` first, `image/jpeg` second) finalizes with
the mime type of the LAST chunk, not the first one as the claim states. -/
theorem c3_first_mime_counterexample :
    firstBinary [some [⟨some ⟨[1], "image/png"⟩, none⟩],
        some [⟨some ⟨[2], "image/jpeg"⟩, none⟩]] = some ([1], "image/png") ∧
    (muxRun freshImageService [some [⟨some ⟨[1], "image/png"⟩, none⟩],
        some [⟨some ⟨[2], "image/jpeg"⟩, none⟩]]).1.mime_type = some ("image/jpeg") ∧
    some ("image/jpeg") ≠ some ("image/png") := by
  refine ⟨by decide, by decide, by decide⟩

/-- Claim C3 (amended): for every stream with at least one binary chunk, the
finalized accumulator's mime_type equals the mime type declared by the LAST
binary chunk (consistently with the retained payload, which is also the last
one observed). -/
theorem c3_last_mime_amended (chunks : List GChunk) (d : List UInt8) (m : String)
    (h : lastBinary chunks = some (d, m)) :
    (muxRun freshImageService chunks).1.mime_type = some m ∧
      (muxRun freshImageService chunks).1.processed_image_data = some d := by
  rw [muxRun_state freshImageService chunks, h]
  exact ⟨rfl, rfl⟩

theorem c3_last_mime_amended_witness :
    lastBinary [some [⟨some ⟨[1], "image/png"⟩, none⟩],
        some [⟨some ⟨[2], "image/jpeg"⟩, none⟩]] = some ([2], "image/jpeg") ∧
    ((muxRun freshImageService [some [⟨some ⟨[1], "image/png"⟩, none⟩],
        some [⟨some ⟨[2], "image/jpeg"⟩, none⟩]]).1.mime_type = some ("image/jpeg") ∧
      (muxRun freshImageService [some [⟨some ⟨[1], "image/png"⟩, none⟩],
        some [⟨some ⟨[2], "image/jpeg"⟩, none⟩]]).1.processed_image_data = some [2]) :=
  ⟨by decide,
    c3_last_mime_amended
      [some [⟨some ⟨[1], "image/png"⟩, none⟩], some [⟨some ⟨[2], "image/jpeg"⟩, none⟩]]
      [2] ("image/jpeg") (by decide)⟩

/-- Claim C4: the servicer holds ONE `ImageService`, so the accumulator is
reused across requests.  Request A (one binary chunk `[7]`/`image/png`)
followed by request B (text only, no binary chunk) makes B SUCCEED with
request A's image bytes, whereas the same request B against a fresh service
fails — the second request's reply depends on what ran before it, and a
buffer of run A is visible to run B. -/
theorem c4_cross_request_reuse :
    (ProcessImage (ProcessImage freshImageService
        [some [⟨some ⟨[7], "image/png"⟩, none⟩]]).1
        [some [⟨none, some (toChars ("x"))⟩]]).2 =
      .success ⟨[7], "image/png", toChars ("x")⟩ ∧
    (ProcessImage freshImageService [some [⟨none, some (toChars ("x"))⟩]]).2 =
      .internalError ⟨[], "", toChars ("Error: ") ++ typeErrorText⟩ ∧
    (ProcessImage (ProcessImage freshImageService
        [some [⟨some ⟨[7], "image/png"⟩, none⟩]]).1
        [some [⟨none, some (toChars ("x"))⟩]]).2 ≠
      (ProcessImage freshImageService [some [⟨none, some (toChars ("x"))⟩]]).2 := by
  refine ⟨by decide, by decide, by decide⟩

/-- Claim C5: the multiplexer's final text buffer is the left-to-right
concatenation of the stream's text fragments in arrival order — both for the
seo-service loop (`response_text += chunk.text`) and for the image-service
part loop — and in particular `["Hel", "lo, ", "world"]` reassembles to
`"Hello, world"`. -/
theorem c5_text_concat :
    (∀ chunks : List (List Char), seoTextBuffer chunks = joinFragments chunks) ∧
    (∀ (st : GenState) (chunks : List GChunk),
      (muxRun st chunks).2 = joinFragments (textFragments chunks)) ∧
    seoTextBuffer [toChars ("Hel"), toChars ("lo, "), toChars ("world")] =
      toChars ("Hello, world") := by
  refine ⟨?_, muxRun_text, by decide⟩
  intro chunks
  rw [seoTextBuffer, foldl_append_eq_join chunks []]
  rfl

/-- Claim C10: on a freshly constructed service, a stream that never yields a
binary chunk makes `generate` raise a `TypeError` (from `len(None)` in the
final success log) rather than return a result or a dedicated error. -/
theorem c10_empty_stream_typeerror (chunks : List GChunk)
    (h : lastBinary chunks = none) :
    (ImageService_generate freshImageService chunks).2 = .error .typeError := by
  have hs := muxRun_state freshImageService chunks
  rw [h] at hs
  simp only [ImageService_generate]
  rw [hs]
  rfl

theorem c10_empty_stream_typeerror_witness :
    lastBinary [some [⟨none, some (toChars ("hi"))⟩]] = none ∧
    (ImageService_generate freshImageService
      [some [⟨none, some (toChars ("hi"))⟩]]).2 = .error .typeError :=
  ⟨by decide, c10_empty_stream_typeerror [some [⟨none, some (toChars ("hi"))⟩]] (by decide)⟩

theorem loopGo_always_tool (tool : List Char → List Char)
    (argf : List TTurn → List Char) :
    ∀ (budget : Nat) (tr : List TTurn),
      countModelTurns (loopGo (fun t => .toolCall (argf t)) tool budget tr).1 =
          countModelTurns tr + (budget + 1) ∧
        (loopGo (fun t => .toolCall (argf t)) tool budget tr).2 = degradedAnswer := by
  intro budget
  induction budget with
  | zero =>
    intro tr
    constructor
    · simp [loopGo, countModelTurns, isModelTurn]
    · rfl
  | succ b ih =>
    intro tr
    rcases ih (tr ++ [.modelTurn (.toolCall (argf tr)), .toolTurn (tool (argf tr))])
      with ⟨h1, h2⟩
    constructor
    · rw [loopGo]
      rw [h1]
      simp [countModelTurns, isModelTurn]
      omega
    · rw [loopGo]
      exact h2

/-- Claim C9: a model that requests a tool on every turn still terminates
(`runLoop` is a total function): the run finalizes with the degraded answer
and a transcript of exactly cap+1 model turns. -/
theorem c9_loop_cap_terminates (cap : Nat) (tool : List Char → List Char)
    (argf : List TTurn → List Char) :
    countModelTurns (runLoop (fun t => .toolCall (argf t)) tool cap).1 = cap + 1 ∧
      (runLoop (fun t => .toolCall (argf t)) tool cap).2 = degradedAnswer := by
  have h := loopGo_always_tool tool argf cap []
  rw [runLoop]
  simpa [countModelTurns] using h

/-- Claim C8: every exception raised inside the tool invocation is normalized
into the single string channel (`"Error analyzing image URL: " + str(e)`),
and feeding that tool into the orchestration loop folds the failure into the
transcript as a tool turn and lets the run finish normally. -/
theorem c8_tool_errors_normalized (e : List Char) (cap : Nat) (hcap : 1 ≤ cap) :
    SEOAnalysisTool_run (.error e) = toChars ("Error analyzing image URL: ") ++ e ∧
    runLoop demoModel (fun _ => SEOAnalysisTool_run (.error e)) cap =
      ([.modelTurn (.toolCall (toChars ("http://x/img.jpg"))),
        .toolTurn (toChars ("Error analyzing image URL: ") ++ e),
        .modelTurn (.finalAns (toChars ("done")))], toChars ("done")) := by
  constructor
  · rfl
  · match cap, hcap with
    | b + 1, _ =>
      rw [runLoop, loopGo]
      cases b with
      | zero => rfl
      | succ b2 => rfl

theorem c8_tool_errors_normalized_witness :
    (1 ≤ 15) ∧
    (SEOAnalysisTool_run (.error (toChars ("network unreachable"))) =
        toChars ("Error analyzing image URL: ") ++ toChars ("network unreachable") ∧
      runLoop demoModel
          (fun _ => SEOAnalysisTool_run (.error (toChars ("network unreachable")))) 15 =
        ([.modelTurn (.toolCall (toChars ("http://x/img.jpg"))),
          .toolTurn (toChars ("Error analyzing image URL: ") ++
            toChars ("network unreachable")),
          .modelTurn (.finalAns (toChars ("done")))], toChars ("done"))) :=
  ⟨by decide, c8_tool_errors_normalized (toChars ("network unreachable")) 15 (by decide)⟩

theorem tryJsonMatches_found : ∀ (ms : List (List Char)) (t d : List Char),
    tryJsonMatches ms = .found t d → t ≠ [] ∧ d ≠ [] := by
  intro ms
  induction ms with
  | nil => intro t d h; simp [tryJsonMatches] at h
  | cons m ms ih =>
    intro t d h
    rw [tryJsonMatches] at h
    cases hj : jsonLoads m with
    | none =>
      rw [hj] at h
      exact ih t d h
    | some v =>
      rw [hj] at h
      cases v with
      | obj fs =>
        simp only at h
        cases h1 : stripField (dictGet fs titleKw) with
        | none =>
          rw [h1] at h
          cases h2 : stripField (dictGet fs descKw) <;> rw [h2] at h <;> simp at h
        | some t' =>
          cases h2 : stripField (dictGet fs descKw) with
          | none => rw [h1, h2] at h; simp at h
          | some d' =>
            rw [h1, h2] at h
            simp only at h
            by_cases hne : t' ≠ [] ∧ d' ≠ []
            · rw [if_pos hne] at h
              cases h
              exact hne
            · rw [if_neg hne] at h
              exact ih t d h
      | str s => simp at h
      | num r => simp at h
      | jbool b => simp at h
      | jnull => simp at h
      | arr es => simp at h

/-- The final `if not title or not description: abort / return` of
`_parse_gemini_response`, for an arbitrary resolved pair `q`. -/
theorem finalize_ok (text : List Char) (q : List Char × List Char) (t d : List Char)
    (h : (if q.1 = [] ∨ q.2 = [] then
        POutcome.aborted ⟨!q.1.isEmpty, !q.2.isEmpty, debugPreview text⟩
      else POutcome.ok q.1 q.2) = .ok t d) :
    t ≠ [] ∧ d ≠ [] := by
  split at h
  · exact absurd h (by simp)
  · next hcond =>
    push_neg at hcond
    cases h
    exact hcond

theorem finalize_aborted (text : List Char) (q : List Char × List Char) (info : AbortInfo)
    (h : (if q.1 = [] ∨ q.2 = [] then
        POutcome.aborted ⟨!q.1.isEmpty, !q.2.isEmpty, debugPreview text⟩
      else POutcome.ok q.1 q.2) = .aborted info) :
    info = ⟨!q.1.isEmpty, !q.2.isEmpty, debugPreview text⟩ := by
  split at h
  · injection h with h2
    exact h2.symm
  · exact absurd h (by simp)

/-- Claim C1: extraction returns a result only with both fields non-empty;
every `.ok` outcome of `_parse_gemini_response` carries a non-empty title and
a non-empty description (all other paths abort or raise). -/
theorem c1_no_partial_result (text t d : List Char)
    (h : parse_gemini_response text = .ok t d) : t ≠ [] ∧ d ≠ [] := by
  rw [parse_gemini_response] at h
  cases h1 : tryJsonMatches (findallTD text) with
  | found t2 d2 =>
    rw [h1] at h
    simp only at h
    injection h with ht hd
    subst ht
    subst hd
    exact tryJsonMatches_found _ _ _ h1
  | pyExn =>
    rw [h1] at h
    exact POutcome.noConfusion h
  | noMatch =>
    rw [h1] at h
    simp only at h
    exact finalize_ok text _ t d h

theorem c1_no_partial_result_witness :
    parse_gemini_response (toChars ("\x7b\"title\": \"A\", \"description\": \"B\"\x7d")) =
      .ok (toChars ("A")) (toChars ("B")) ∧
    (toChars ("A") ≠ [] ∧ toChars ("B") ≠ []) :=
  ⟨by decide,
    c1_no_partial_result (toChars ("\x7b\"title\": \"A\", \"description\": \"B\"\x7d"))
      (toChars ("A")) (toChars ("B")) (by decide)⟩

/-- Claim C6: whenever all strategies fail, the abort payload's preview is
the bounded `debugPreview`: at most 503 characters, the full text exactly
when the text has at most 500 characters, and the truncated first 500
characters plus an ellipsis otherwise. -/
theorem c6_bounded_preview (text : List Char) (info : AbortInfo)
    (h : parse_gemini_response text = .aborted info) :
    info.preview = debugPreview text ∧ info.preview.length ≤ 503 ∧
      (text.length ≤ 500 → info.preview = text) ∧
      (500 < text.length → info.preview = text.take 500 ++ toChars ("...")) := by
  have hprev : info.preview = debugPreview text := by
    rw [parse_gemini_response] at h
    cases h1 : tryJsonMatches (findallTD text) with
    | found t2 d2 =>
      rw [h1] at h
      exact POutcome.noConfusion h
    | pyExn =>
      rw [h1] at h
      exact POutcome.noConfusion h
    | noMatch =>
      rw [h1] at h
      simp only at h
      rw [finalize_aborted text _ info h]
  refine ⟨hprev, ?_, ?_, ?_⟩
  · rw [hprev, debugPreview]
    have h3 : (toChars ("...")).length = 3 := rfl
    split
    · next hlen =>
      simp only [List.length_append, List.length_take]
      omega
    · next hlen =>
      push_neg at hlen
      omega
  · intro hle
    rw [hprev, debugPreview, if_neg (by omega)]
  · intro hlt
    rw [hprev, debugPreview, if_pos hlt]

theorem c6_bounded_preview_witness :
    parse_gemini_response (toChars ("hello world")) =
      .aborted ⟨false, false, toChars ("hello world")⟩ ∧
    ((⟨false, false, toChars ("hello world")⟩ : AbortInfo).preview =
        debugPreview (toChars ("hello world")) ∧
      (⟨false, false, toChars ("hello world")⟩ : AbortInfo).preview.length ≤ 503 ∧
      ((toChars ("hello world")).length ≤ 500 →
        (⟨false, false, toChars ("hello world")⟩ : AbortInfo).preview =
          toChars ("hello world")) ∧
      (500 < (toChars ("hello world")).length →
        (⟨false, false, toChars ("hello world")⟩ : AbortInfo).preview =
          (toChars ("hello world")).take 500 ++ toChars ("..."))) :=
  ⟨by decide, c6_bounded_preview (toChars ("hello world")) _ (by decide)⟩

/-- Claim C2, counterexample: the text
`Here: \x7b"description": "d", "title": "say \"hi\""\x7d end` contains a
well-formed brace-delimited object with both required keys and non-empty
values (witnessed by `jsonLoads`), yet the structured-literal scan finds no
match — the strategy-1 regex requires the `title` key to occur BEFORE
`description` — and extraction falls through to the key-pattern strategy,
returning the title `say \` instead of the object's exact value `say "hi"`. -/
theorem c2_key_order_counterexample :
    jsonLoads (toChars ("\x7b\"description\": \"d\", \"title\": \"say \\\"hi\\\"\"\x7d")) =
      some (.obj [(toChars ("description"), .str (toChars ("d"))),
                  (toChars ("title"), .str (toChars ("say \"hi\"")))]) ∧
    findallTD
        (toChars ("Here: \x7b\"description\": \"d\", \"title\": \"say \\\"hi\\\"\"\x7d end")) =
      [] ∧
    parse_gemini_response
        (toChars ("Here: \x7b\"description\": \"d\", \"title\": \"say \\\"hi\\\"\"\x7d end")) =
      .ok (toChars ("say \\")) (toChars ("d")) ∧
    toChars ("say \\") ≠ toChars ("say \"hi\"") :=
  ⟨by rfl, by rfl, by decide, by decide⟩

theorem objLit_length (T D : List Char) :
    (objLit T D).length = 32 + T.length + D.length := by
  simp [objLit, objTail, titleLit, descLit, toChars, List.length_append]
  omega

/-! Generic list helpers. -/

theorem takeLen {α : Type} (a b : List α) : (a ++ b).take a.length = a := by
  induction a with
  | nil => simp
  | cons x a ih => simp [ih]

theorem dropLen {α : Type} (a b : List α) : (a ++ b).drop a.length = b := by
  induction a with
  | nil => simp
  | cons x a ih => simp [ih]

theorem dropAppendLe {α : Type} (a b : List α) :
    ∀ m, m ≤ a.length → (a ++ b).drop m = a.drop m ++ b := by
  induction a with
  | nil =>
    intro m hm
    have hm0 : m = 0 := by simpa using hm
    subst hm0
    simp
  | cons x a ih =>
    intro m hm
    cases m with
    | zero => simp
    | succ m2 =>
      simp only [List.cons_append, List.drop_succ_cons]
      exact ih m2 (by simpa using hm)

theorem beginsWith_append_self (n : List Char) : ∀ t, beginsWith n (n ++ t) = true := by
  induction n with
  | nil => intro t; rfl
  | cons c n ih => intro t; simp [beginsWith, ih]

theorem findSub_zero (n l : List Char) (h : beginsWith n l = true) :
    findSub n l = some 0 := by
  cases l with
  | nil => simp [findSub, h]
  | cons c rest => simp [findSub, h]

theorem findSub_le (n : List Char) :
    ∀ (l : List Char) (q : Nat), beginsWith n (l.drop q) = true →
      ∃ j, findSub n l = some j ∧ j ≤ q := by
  intro l
  induction l with
  | nil =>
    intro q h
    simp only [List.drop_nil] at h
    exact ⟨0, by simp [findSub, h], Nat.zero_le q⟩
  | cons c rest ih =>
    intro q h
    by_cases hb : beginsWith n (c :: rest) = true
    · exact ⟨0, by simp [findSub, hb], Nat.zero_le q⟩
    · cases q with
      | zero => exact absurd h hb
      | succ q2 =>
        simp only [List.drop_succ_cons] at h
        obtain ⟨j, hj, hle⟩ := ih q2 h
        refine ⟨j + 1, ?_, by omega⟩
        simp [findSub, hb, hj]

theorem findSub_single (c : Char) (a b : List Char) (h : c ∉ a) :
    findSub [c] (a ++ c :: b) = some a.length := by
  induction a with
  | nil => simp [findSub, beginsWith]
  | cons x a ih =>
    have hxc : ¬ (c = x) := fun hcx => h (hcx ▸ List.mem_cons_self x a)
    have hna : c ∉ a := fun hm => h (List.mem_cons_of_mem x hm)
    simp only [List.cons_append, findSub, beginsWith]
    rw [if_neg (by simp [hxc])]
    simp only [List.append_eq]
    rw [ih hna]
    simp

theorem strSafe_facts (c : Char) (h : strSafe c = true) :
    ¬ (c = dqc) ∧ ¬ (c = bslc) ∧ ¬ (c = lbrace) ∧ ¬ (c = rbrace) ∧ ¬ (c.toNat < 32) := by
  simp only [strSafe, decide_eq_true_eq] at h
  exact ⟨h.2.1, h.2.2.1, h.2.2.2.1, h.2.2.2.2, by omega⟩

theorem lexString_safe (T : List Char) (hT : ∀ x ∈ T, strSafe x = true) :
    ∀ r, lexString (T ++ dqc :: r) = some (T, r) := by
  induction T with
  | nil =>
    intro r
    rw [List.nil_append, lexString.eq_def]
    rfl
  | cons c T ih =>
    intro r
    have hc := strSafe_facts c (hT c (List.mem_cons_self c T))
    have hT2 : ∀ x ∈ T, strSafe x = true := fun x hx => hT x (List.mem_cons_of_mem c hx)
    rw [List.cons_append, lexString.eq_def]
    simp only []
    rw [if_neg hc.1, if_neg hc.2.1, if_neg hc.2.2.2.2]
    rw [ih hT2 r]
    rfl

theorem parseJ_val_str (n : Nat) (Z body r : List Char)
    (h : lexString Z = some (body, r)) :
    parseJ (n + 1) .val (dqc :: Z) = some (.str body, r) := by
  have e : parseJ (n + 1) .val (dqc :: Z) =
      (lexString Z).map (fun p => (JValue.str p.1, p.2)) := rfl
  rw [e, h]
  rfl

theorem parseJ_objLit (T D : List Char)
    (hT : ∀ x ∈ T, strSafe x = true) (hD : ∀ x ∈ D, strSafe x = true) :
    ∀ g : Nat, parseJ (g + 6) .val (objLit T D) = some (objVal T D, []) := by
  intro g
  have e1 : parseJ (g + 6) .val (objLit T D) =
      (parseJ (g + 4) .val (dqc :: (T ++ dqc :: ',' :: ' ' :: dqc :: 'd' :: 'e' :: 's' ::
        'c' :: 'r' :: 'i' :: 'p' :: 't' :: 'i' :: 'o' :: 'n' :: dqc :: ':' :: ' ' :: dqc ::
        (D ++ dqc :: rbrace :: [])))).bind
        (fun vr => parseJ (g + 4) (.members [(titleKw, vr.1)]) (skipJWs vr.2)) := rfl
  have e2 : parseJ (g + 4) .val (dqc :: (T ++ dqc :: ',' :: ' ' :: dqc :: 'd' :: 'e' ::
      's' :: 'c' :: 'r' :: 'i' :: 'p' :: 't' :: 'i' :: 'o' :: 'n' :: dqc :: ':' :: ' ' ::
      dqc :: (D ++ dqc :: rbrace :: []))) =
      some (.str T, ',' :: ' ' :: dqc :: 'd' :: 'e' :: 's' :: 'c' :: 'r' :: 'i' :: 'p' ::
        't' :: 'i' :: 'o' :: 'n' :: dqc :: ':' :: ' ' :: dqc :: (D ++ dqc :: rbrace :: [])) :=
    parseJ_val_str (g + 3) _ _ _
      (lexString_safe T hT (',' :: ' ' :: dqc :: 'd' :: 'e' :: 's' :: 'c' :: 'r' :: 'i' ::
        'p' :: 't' :: 'i' :: 'o' :: 'n' :: dqc :: ':' :: ' ' :: dqc ::
        (D ++ dqc :: rbrace :: [])))
  rw [e1, e2]
  have e3 : (some ((JValue.str T),
      ',' :: ' ' :: dqc :: 'd' :: 'e' :: 's' :: 'c' :: 'r' :: 'i' :: 'p' :: 't' :: 'i' ::
        'o' :: 'n' :: dqc :: ':' :: ' ' :: dqc :: (D ++ dqc :: rbrace :: []))).bind
        (fun vr => parseJ (g + 4) (.members [(titleKw, vr.1)]) (skipJWs vr.2)) =
      (parseJ (g + 3) .val (dqc :: (D ++ dqc :: rbrace :: []))).bind
        (fun vr => parseJ (g + 3)
          (.members [(descKw, vr.1), (titleKw, JValue.str T)]) (skipJWs vr.2)) := rfl
  rw [e3]
  have e4 : parseJ (g + 3) .val (dqc :: (D ++ dqc :: rbrace :: [])) =
      some (.str D, rbrace :: []) :=
    parseJ_val_str (g + 2) _ _ _ (lexString_safe D hD (rbrace :: []))
  rw [e4]
  rfl

theorem objA_length (T D : List Char) :
    (objA T D).length = 23 + T.length + D.length := by
  simp [objA, objPreT, objPostT, descLit, toChars]
  omega

theorem preT_len (T : List Char) :
    (objPreT ++ T ++ objPostT).length = 6 + T.length := by
  simp [objPreT, objPostT]
  omega

theorem objA_no_rbrace (T D : List Char)
    (hT : ∀ x ∈ T, strSafe x = true) (hD : ∀ x ∈ D, strSafe x = true) :
    rbrace ∉ objA T D := by
  intro hm
  simp only [objA, List.mem_append] at hm
  rcases hm with ((((((h | h) | h) | h) | h) | h) | h)
  · exact absurd h (by decide)
  · exact (strSafe_facts _ (hT _ h)).2.2.2.1 rfl
  · exact absurd h (by decide)
  · exact absurd h (by decide)
  · exact absurd h (by decide)
  · exact (strSafe_facts _ (hD _ h)).2.2.2.1 rfl
  · exact absurd h (by decide)

theorem objLit_decomp (T D s : List Char) :
    objLit T D ++ s = lbrace :: (titleLit ++ (objA T D ++ rbrace :: s)) := by
  simp [objLit, objTail, objA, objPreT, objPostT, titleLit, descLit, toChars,
    List.append_assoc]

theorem objA_decomp (T D : List Char) :
    objA T D = (objPreT ++ T ++ objPostT) ++ (descLit ++ (objPreT ++ D ++ [dqc])) := by
  simp [objA, List.append_assoc]

theorem matchTD_objLit (T D s : List Char)
    (hT : ∀ x ∈ T, strSafe x = true) (hD : ∀ x ∈ D, strSafe x = true) :
    matchTD (objLit T D ++ s) = some ((objLit T D).length) := by
  rw [objLit_decomp]
  rw [matchTD.eq_def]
  simp only []
  rw [if_pos trivial]
  rw [findSub_zero titleLit _ (beginsWith_append_self titleLit _)]
  simp only []
  rw [Nat.zero_add, dropLen titleLit (objA T D ++ rbrace :: s)]
  have hocc : beginsWith descLit
      ((objA T D ++ rbrace :: s).drop ((objPreT ++ T ++ objPostT).length)) = true := by
    have hsplit : objA T D ++ rbrace :: s =
        (objPreT ++ T ++ objPostT) ++
          (descLit ++ ((objPreT ++ D ++ [dqc]) ++ rbrace :: s)) := by
      simp [objA, List.append_assoc]
    rw [hsplit, dropLen]
    exact beginsWith_append_self descLit _
  obtain ⟨j, hj, hjle⟩ := findSub_le descLit (objA T D ++ rbrace :: s) _ hocc
  rw [hj]
  simp only []
  have hjA : j + descLit.length ≤ (objA T D).length := by
    have h1 := objA_length T D
    have h2 := preT_len T
    have h6 : descLit.length = 13 := rfl
    omega
  rw [dropAppendLe (objA T D) (rbrace :: s) (j + descLit.length) hjA]
  have hnr : rbrace ∉ (objA T D).drop (j + descLit.length) := by
    intro hm
    exact objA_no_rbrace T D hT hD (List.drop_subset _ _ hm)
  rw [findSub_single rbrace _ s hnr]
  simp only []
  congr 1
  have h1 := objA_length T D
  have h2 := preT_len T
  have h3 := objLit_length T D
  have h4 : ((objA T D).drop (j + descLit.length)).length =
      (objA T D).length - (j + descLit.length) := List.length_drop _ _
  have h5 : titleLit.length = 7 := rfl
  have h6 : descLit.length = 13 := rfl
  omega

theorem findall_skip (p : List Char) (hp : lbrace ∉ p) :
    ∀ (fuel : Nat) (l : List Char),
      findallFuel (p.length + fuel) (p ++ l) = findallFuel fuel l := by
  induction p with
  | nil => intro fuel l; simp
  | cons c p ih =>
    intro fuel l
    have hc : ¬ (c = lbrace) := fun h => hp (h ▸ List.mem_cons_self c p)
    have hp2 : lbrace ∉ p := fun h => hp (List.mem_cons_of_mem c h)
    have hlen : (c :: p).length + fuel = (p.length + fuel) + 1 := by
      simp [List.length_cons]
      omega
    rw [hlen, List.cons_append, findallFuel.eq_def]
    simp only []
    have hm : matchTD (c :: (p ++ l)) = none := by
      rw [matchTD.eq_def]
      simp only []
      rw [if_neg hc]
    rw [hm]
    exact ih hp2 fuel l

theorem findallTD_prose_obj (p T D s : List Char) (hp : lbrace ∉ p)
    (hT : ∀ x ∈ T, strSafe x = true) (hD : ∀ x ∈ D, strSafe x = true) :
    ∃ r, findallTD (p ++ (objLit T D ++ s)) = objLit T D :: r := by
  rw [findallTD]
  have hlen : (p ++ (objLit T D ++ s)).length = p.length + (objLit T D ++ s).length := by
    simp [List.length_append]
  rw [hlen, findall_skip p hp _ _]
  have hshape : objLit T D ++ s = lbrace :: (objTail T D ++ s) := by simp [objLit]
  have hlen2 : (objLit T D ++ s).length = (objTail T D ++ s).length + 1 := by
    rw [hshape]
    simp
  have hm := matchTD_objLit T D s hT hD
  rw [hshape] at hm
  rw [hlen2, hshape, findallFuel.eq_def]
  simp only []
  rw [hm]
  simp only []
  refine ⟨findallFuel ((objTail T D ++ s).length)
    ((lbrace :: (objTail T D ++ s)).drop (objLit T D).length), ?_⟩
  rw [← hshape, takeLen]

theorem jsonLoads_objLit (T D : List Char)
    (hT : ∀ x ∈ T, strSafe x = true) (hD : ∀ x ∈ D, strSafe x = true) :
    jsonLoads (objLit T D) = some (objVal T D) := by
  have hskip : skipJWs (objLit T D) = objLit T D := by
    rw [objLit, skipJWs, List.dropWhile_cons]
    rw [if_neg (by decide)]
  have hlen : (objLit T D).length + 1 = (27 + T.length + D.length) + 6 := by
    rw [objLit_length]
    omega
  unfold jsonLoads
  rw [hskip, hlen, parseJ_objLit T D hT hD (27 + T.length + D.length)]
  rfl

theorem tryJsonMatches_objLit (T D : List Char) (r : List (List Char))
    (hT : ∀ x ∈ T, strSafe x = true) (hD : ∀ x ∈ D, strSafe x = true)
    (hTne : T ≠ []) (hTstrip : pyStrip T = T)
    (hDne : D ≠ []) (hDstrip : pyStrip D = D) :
    tryJsonMatches (objLit T D :: r) = .found T D := by
  rw [tryJsonMatches, jsonLoads_objLit T D hT hD]
  simp only [objVal]
  have hget1 : dictGet [(titleKw, JValue.str T), (descKw, JValue.str D)] titleKw =
      JValue.str T := rfl
  have hget2 : dictGet [(titleKw, JValue.str T), (descKw, JValue.str D)] descKw =
      JValue.str D := rfl
  rw [hget1, hget2]
  rw [show stripField (JValue.str T) = some (pyStrip T) from rfl,
    show stripField (JValue.str D) = some (pyStrip D) from rfl]
  rw [hTstrip, hDstrip]
  show (if T ≠ [] ∧ D ≠ [] then Strat1.found T D else tryJsonMatches r) = Strat1.found T D
  rw [if_pos ⟨hTne, hDne⟩]

/-- Claim C2 (amended): for every text of the form
`prose ++ \x7b"title": "T", "description": "D"\x7d ++ suffix` where the prose
contains no opening brace, the title key precedes the description key, and
the values are non-empty, strip-invariant strings of printable characters
free of quotes, backslashes and braces, the structured-literal strategy
succeeds and `extract` returns exactly those field values regardless of the
surrounding prose.  (Reversed key order — or values with escaped quotes —
defeat the structured scan; see the counterexample.) -/
theorem c2_structured_literal_amended (p s T D : List Char)
    (hp : lbrace ∉ p)
    (hT : ∀ x ∈ T, strSafe x = true) (hTne : T ≠ []) (hTstrip : pyStrip T = T)
    (hD : ∀ x ∈ D, strSafe x = true) (hDne : D ≠ []) (hDstrip : pyStrip D = D) :
    parse_gemini_response (p ++ objLit T D ++ s) = .ok T D := by
  have hassoc : p ++ objLit T D ++ s = p ++ (objLit T D ++ s) := List.append_assoc p _ s
  obtain ⟨r, hr⟩ := findallTD_prose_obj p T D s hp hT hD
  rw [parse_gemini_response, hassoc, hr,
    tryJsonMatches_objLit T D r hT hD hTne hTstrip hDne hDstrip]

theorem c2_structured_literal_amended_witness :
    (lbrace ∉ toChars ("See: ")) ∧
    (∀ x ∈ toChars ("My Product"), strSafe x = true) ∧ toChars ("My Product") ≠ [] ∧
    pyStrip (toChars ("My Product")) = toChars ("My Product") ∧
    (∀ x ∈ toChars ("Nice photo"), strSafe x = true) ∧ toChars ("Nice photo") ≠ [] ∧
    pyStrip (toChars ("Nice photo")) = toChars ("Nice photo") ∧
    parse_gemini_response (toChars ("See: ") ++
        objLit (toChars ("My Product")) (toChars ("Nice photo")) ++ toChars (" thanks")) =
      .ok (toChars ("My Product")) (toChars ("Nice photo")) :=
  ⟨by decide, by decide, by decide, by decide, by decide, by decide, by decide,
    c2_structured_literal_amended (toChars ("See: ")) (toChars (" thanks"))
      (toChars ("My Product")) (toChars ("Nice photo"))
      (by decide) (by decide) (by decide) (by decide)
      (by decide) (by decide) (by decide)⟩

theorem generateFromImageUrl_too_large (url : List Char) (env : UrlEnv)
    (ct : String) (body : List UInt8)
    (hurl : url ≠ []) (hdl : env.download = .ok (ct, body))
    (hct : strStartsWith ("image/") ct = true)
    (hsize : body.length > MAX_IMAGE_BYTES) :
    GenerateFromImageUrl url env =
      .abort .internal (toChars ("Unexpected error: ") ++
        toChars ("Image file is too large. Maximum 10MB supported.")) := by
  unfold GenerateFromImageUrl
  rw [if_neg hurl, hdl]
  have hchecks : urlTryChecks env ct body =
      .error (.invalidArgument,
        toChars ("Image file is too large. Maximum 10MB supported.")) := by
    unfold urlTryChecks
    rw [if_neg (by simp [hct]), if_pos hsize]
  simp only []
  rw [hchecks]

/-- Claim C7: a downloaded payload over 10 MiB makes the invocation fail (the
size abort fires, wrapped to INTERNAL by the outer `except Exception`) before
any Gemini call — the outcome is independent of the AI environment — and on
the agent side the resulting stub exception is normalized into the tool's
single string channel rather than crashing the loop. -/
theorem c7_payload_too_large (url : List Char) (env : UrlEnv)
    (ct : String) (body : List UInt8)
    (hurl : url ≠ []) (hdl : env.download = .ok (ct, body))
    (hct : strStartsWith ("image/") ct = true)
    (hsize : body.length > MAX_IMAGE_BYTES) :
    GenerateFromImageUrl url env =
      .abort .internal (toChars ("Unexpected error: ") ++
        toChars ("Image file is too large. Maximum 10MB supported.")) ∧
    (∀ ai1 ai2 : Except (List Char) (List Char),
      GenerateFromImageUrl url { env with ai := ai1 } =
        GenerateFromImageUrl url { env with ai := ai2 }) ∧
    (∀ e : List Char,
      SEOAnalysisTool_run (.error e) = toChars ("Error analyzing image URL: ") ++ e) := by
  refine ⟨generateFromImageUrl_too_large url env ct body hurl hdl hct hsize, ?_, fun e => rfl⟩
  intro ai1 ai2
  have h1 := generateFromImageUrl_too_large url { env with ai := ai1 } ct body hurl hdl hct hsize
  have h2 := generateFromImageUrl_too_large url { env with ai := ai2 } ct body hurl hdl hct hsize
  rw [h1, h2]

theorem c7_payload_too_large_witness :
    ((toChars ("http://x/img.jpg")) ≠ [] ∧
      (UrlEnv.mk (.ok ("image/png", List.replicate (MAX_IMAGE_BYTES + 1) 0))
          (fun _ => .ok ()) (.ok [])).download =
        .ok ("image/png", List.replicate (MAX_IMAGE_BYTES + 1) 0) ∧
      strStartsWith ("image/") ("image/png") = true ∧
      (List.replicate (MAX_IMAGE_BYTES + 1) (0 : UInt8)).length > MAX_IMAGE_BYTES) ∧
    GenerateFromImageUrl (toChars ("http://x/img.jpg"))
        (UrlEnv.mk (.ok ("image/png", List.replicate (MAX_IMAGE_BYTES + 1) 0))
          (fun _ => .ok ()) (.ok [])) =
      .abort .internal (toChars ("Unexpected error: ") ++
        toChars ("Image file is too large. Maximum 10MB supported.")) :=
  ⟨⟨by decide, rfl, by decide, by rw [List.length_replicate]; omega⟩,
    (c7_payload_too_large (toChars ("http://x/img.jpg"))
      (UrlEnv.mk (.ok ("image/png", List.replicate (MAX_IMAGE_BYTES + 1) 0))
        (fun _ => .ok ()) (.ok []))
      ("image/png") (List.replicate (MAX_IMAGE_BYTES + 1) 0)
      (by decide) rfl (by decide) (by rw [List.length_replicate]; omega)).1⟩
